import Mathlib

/-!
Verification of the FamAnalysis pipeline (src/main.py, src/definitions.py)
against its natural-language specification.

The shallow embedding below translates the database-construction scheduler
(`build_db`, `create_new_records`) and the AlphaMissense scoring pass
(`calc_mutations_afm_scores`, the `score-AFM` branch of `main`) into Lean.
Pandas data frames become lists of indexed rows; pandas value equality
(where a missing value, NaN, compares unequal even to itself) is modelled
explicitly, as is the hash-based equality used by `Series.duplicated` and
`Series.unique` (where two NaNs do count as duplicates of each other).
Python exceptions become `Except` results.  Repository code imported by
src/main.py but not present under src/ (utils.adaptive_chunksize,
utils.afm_iterator, the Protein/Mutation/Analyze classes) is modelled from
the spec; each such definition carries a doc comment saying so.
-/

namespace FamAnalysis

/-- Model of one csv row of the ingestion input: the protein (subject key)
column, which may be missing (`none` models pandas NaN), and the variant
descriptor column.  The remaining columns (patient, family, genomic
coordinates) are only passed opaquely into `Protein.add_mut` and play no
role in the claims, so they are omitted from the row model. -/
structure Row where
  protein : Option String
  variant : String
deriving DecidableEq

/-- Model of an entry of `DataFrame.iterrows()`: original row index paired with the row. -/
abbrev IRow := Nat × Row

/-- Model of pandas `==` comparison on column values: a missing value (NaN)
compares unequal to everything, including itself. -/
def pandas_eq : Option String → Option String → Bool
  | some a, some b => a == b
  | _, _ => false

/-- Model of the hash-based value identity used by pandas
`Series.duplicated` and `Series.unique`: two missing values (NaNs) are
identified with each other. -/
def hash_eq : Option String → Option String → Bool
  | some a, some b => a == b
  | none, none => true
  | _, _ => false

/-- Model of `df[args.protein_col].duplicated(keep=False)` at row `r`:
true when at least two rows of `df` carry the same protein value
(hash identity) as `r`.  Source: src/main.py lines 179 and 183. -/
def duplicated_keep_false (df : List IRow) (r : IRow) : Bool :=
  2 ≤ df.countP (fun s => hash_eq s.2.protein r.2.protein)

/-- Model of `values_iter = lambda value, data: data[data[args.protein_col] == value].iterrows()`
(src/main.py line 175).  Note the pandas `==`: rows whose protein value is
missing are never selected, for any `value`. -/
def values_iter (value : Option String) (data : List IRow) : List IRow :=
  data.filter (fun r => pandas_eq r.2.protein value)

/-- Helper for `unique_col`: first-occurrence de-duplication against an
accumulator of already seen values, using the hash identity. -/
def unique_aux (seen : List (Option String)) : List (Option String) → List (Option String)
  | [] => []
  | k :: ks =>
    if seen.any (fun x => hash_eq k x) then unique_aux seen ks
    else k :: unique_aux (k :: seen) ks

/-- Model of pandas `Series.unique()` on the protein column: the distinct
values in first-occurrence order, a single NaN kept if present. -/
def unique_col (ks : List (Option String)) : List (Option String) :=
  unique_aux [] ks

/-- Model of the task-building part of `build_db` (src/main.py lines 175-187):
rows whose protein value occurs once go to `unique_rows`, rows whose protein
value is duplicated go to `repeating_rows`; each side is split into one task
per distinct protein value via `values_iter`; the resulting task list is
`tasks_repeating ++ tasks_unique`. -/
def build_tasks (df : List IRow) : List (List IRow) :=
  let unique_rows := df.filter (fun r => ! duplicated_keep_false df r)
  let unique_proteins := unique_col (unique_rows.map (fun r => r.2.protein))
  let tasks_unique := unique_proteins.map (fun v => values_iter v unique_rows)
  let repeating_rows := df.filter (fun r => duplicated_keep_false df r)
  let repeating_proteins := unique_col (repeating_rows.map (fun r => r.2.protein))
  let tasks_repeating := repeating_proteins.map (fun v => values_iter v repeating_rows)
  tasks_repeating ++ tasks_unique

/-- Outcome of the body of the `try` block of `create_new_records` for one
row (Protein construction plus `add_mut`; those classes are outside src/, so
the body is abstracted to its observable outcome): success, a
`TimeoutError`, or any other exception. -/
inductive RowOutcome
  | ok
  | timeout
  | err
deriving DecidableEq

/-- Python exceptions that can escape `create_new_records`:
`FileNotFoundError` from `os.remove` on a missing path, or any exception of
a type other than `TimeoutError` raised by the row body (uncaught, since the
loop only catches `TimeoutError`). -/
inductive PyError
  | fileNotFound (path : String)
  | uncaught
deriving DecidableEq

/-- Textual rendering of a column value inside an f-string: pandas NaN
prints as `nan`. -/
def value_str : Option String → String
  | some s => s
  | none => "nan"

/-- Literal relative path `rf'DB\test_p\{gene}'` used by the timeout cleanup
in `create_new_records` (src/main.py line 166). -/
def protein_record_path (gene : Option String) : String :=
  "DB\\test_p\\" ++ value_str gene

/-- Literal relative path `rf'DB\test_m\{gene}_{mut_desc}.txt'` used by the
timeout cleanup in `create_new_records` (src/main.py line 167). -/
def mutation_record_path (gene : Option String) (desc : String) : String :=
  "DB\\test_m\\" ++ value_str gene ++ "_" ++ desc ++ ".txt"

/-- Model of `os.path.join` on a POSIX system (src/definitions.py line 2). -/
def pjoin (a b : String) : String := a ++ "/" ++ b

/-- Model of `DB_PATH = pjoin(ROOT_DIR, DB)` (src/definitions.py line 21);
`ROOT_DIR` is the absolute directory of definitions.py, a run-time value,
so it is a parameter here. -/
def DB_PATH (root : String) : String := pjoin root "DB"

/-- Model of `PROTEIN_PATH = pjoin(DB_PATH, PROTEINS)` with `PROTEINS = 'test_p'`
(src/definitions.py lines 22-23). -/
def PROTEIN_PATH (root : String) : String := pjoin (DB_PATH root) "test_p"

/-- Model of `MUTATION_PATH = pjoin(DB_PATH, MUTATIONS)` with `MUTATIONS = 'test_m'`
(src/definitions.py lines 24-25). -/
def MUTATION_PATH (root : String) : String := pjoin (DB_PATH root) "test_m"

/-- Model of `create_new_records` (src/main.py lines 143-169) on one task
(the `(idx, row)` pairs of one row group, in order).  `outcome` gives the
result of the row body at each row index; `fs` is the set (list) of paths
existing on disk, threaded through `os.remove` calls.  Per row: on success
continue; on `TimeoutError` remove the two literal relative record paths
(`os.remove` raises `FileNotFoundError` if the path is absent, which is not
caught and aborts the call), append the row index to `skipped` and
continue; on any other exception abort immediately (only `TimeoutError` is
caught). -/
def create_new_records (outcome : Nat → RowOutcome) :
    List IRow → List String → Except PyError (List Nat)
  | [], _ => .ok []
  | (idx, row) :: rest, fs =>
    match outcome idx with
    | .ok => create_new_records outcome rest fs
    | .err => .error .uncaught
    | .timeout =>
      let p := protein_record_path row.protein
      if p ∈ fs then
        let fs1 := fs.erase p
        let q := mutation_record_path row.protein row.variant
        if q ∈ fs1 then
          (create_new_records outcome rest (fs1.erase q)).map (fun sk => idx :: sk)
        else .error (.fileNotFound q)
      else .error (.fileNotFound p)

/-- Model of `multiprocessing.pool.ThreadPool.starmap` as observed by the
caller (src/main.py line 190): all tasks are submitted; iterating the
result list re-raises the exception of the first failed task (in task
order), and yields the list of results only when every task succeeded.
Concurrent interleaving on the shared filesystem is abstracted: each task
is evaluated against the same initial snapshot. -/
def pool_starmap (worker : α → Except PyError β) : List α → Except PyError (List β)
  | [] => .ok []
  | t :: ts =>
    match worker t with
    | .error e => .error e
    | .ok b => (pool_starmap worker ts).map (fun bs => b :: bs)

/-- Model of `build_db` (src/main.py lines 172-201): build the per-protein
tasks from the data frame, run `create_new_records` over them through the
pool, and aggregate the per-group skipped indices (`skipped += status`). -/
def build_db (outcome : Nat → RowOutcome) (fs : List String) (df : List IRow) :
    Except PyError (List Nat) :=
  (pool_starmap (fun g => create_new_records outcome g fs) (build_tasks df)).map
    (fun ss => ss.flatten)

/-- Constant `DEFAULT_RAM_USAGE = 0.65` (src/definitions.py line 42). -/
def DEFAULT_RAM_USAGE : ℚ := 65 / 100

/-- Constant `LOW_MEM_RAM_USAGE = 0.25` (src/definitions.py line 43). -/
def LOW_MEM_RAM_USAGE : ℚ := 25 / 100

/-- Constant `AFM_ROWSIZE = 32.0` (src/definitions.py line 114). -/
def AFM_ROWSIZE : ℚ := 32

/-- Constant `AFM_ROWS = 216175351` (src/definitions.py line 117). -/
def AFM_ROWS : ℕ := 216175351

/-- Modelled from the spec: `utils.adaptive_chunksize` is imported by
src/main.py (line 11) but utils.py in src/ does not define it.  Spec §4.4:
`chunk_rows = floor(ram_budget_fraction * available_ram_bytes / row_byte_cost)`,
deterministic.  The argument order `(rowsize, ram_usage)` follows the call
`adaptive_chunksize(AFM_ROWSIZE, 0.25)` in src/main.py line 243; the
available RAM is measured at run time and is a parameter here. -/
def adaptive_chunksize (rowsize ram_usage available_ram : ℚ) : ℤ :=
  ⌊ram_usage * available_ram / rowsize⌋

/-- Model of one row of the AlphaMissense chunk after column projection
`usecols=['uniprot_id', 'protein_variant', 'am_pathogenicity']`
(src/main.py line 248).  The pathogenicity score is abstracted to an
integer: only assignment and comparison of scores matter to the claims. -/
structure ChunkRow where
  uniprot_id : String
  protein_variant : String
  am_pathogenicity : ℤ
deriving DecidableEq

/-- Chunk of the external AlphaMissense dataset. -/
abbrev Chunk := List ChunkRow

/-- Model of a mutation record as needed for AFM scoring: the subject's
primary uniprot id, its alias identifiers, the variant descriptor, and the
stored AFM score (`none` models the `NO_SCORE` sentinel).  The Mutation
class is outside src/; spec §3 (Variant). -/
structure Mut where
  uid : String
  aliases : List String
  variant : String
  afmScore : Option ℤ
deriving DecidableEq

/-- Modelled from the spec: `Mutation.has_afm` (Mutation class not in src/).
Spec §3: a Variant's per-model state is either the sentinel or a resolved
value; `has_afm` is the resolved flag for the AFM model. -/
def Mut.has_afm (m : Mut) : Bool := m.afmScore.isSome

/-- Modelled from the spec: `Mutation.update_score('AFM', score)` (Mutation
class not in src/).  Spec §4.6: a found score is set and the Variant marked
resolved; an unmatched Variant (score `None`) remains pending, its state
unchanged. -/
def update_score (m : Mut) (score : Option ℤ) : Mut :=
  match score with
  | none => m
  | some v => { m with afmScore := some v }

/-- Modelled from the spec: `Analyze.ProteinAnalyzer.score_mutation_afm`
(Analyze module not in src/).  Spec §4.6-§4.7: look the Variant's key(s) up
in the chunk's identifier index — the primary uniprot id on the direct
pass, expanded with alias identifiers when `use_alias` is set — and return
the pathogenicity of the first chunk row matching both the identifier and
the variant descriptor, or `none` when unmatched.  Deterministic in its
arguments. -/
def score_mutation_afm (chunk : Chunk) (uid_index : List String) (use_alias : Bool)
    (m : Mut) : Option ℤ :=
  let keys := if use_alias then m.uid :: m.aliases else [m.uid]
  keys.findSome? (fun k =>
    if uid_index.contains k then
      (chunk.find? (fun r => r.uniprot_id == k && r.protein_variant == m.variant)).map
        (fun r => r.am_pathogenicity)
    else none)

/-- Model of the task selection of `calc_mutations_afm_scores`
(src/main.py lines 217-220): all mutations when `recalc`, otherwise only
those without an AFM score. -/
def calc_tasks (recalc : Bool) (muts : List Mut) : List Mut :=
  if recalc then muts else muts.filter (fun m => ! m.has_afm)

/-- Effect of one pass of the scoring loop on a single mutation record: a
record selected as a task (`recalc` set, or no AFM score yet) is scored
against the chunk and updated; any other record is untouched
(src/main.py lines 224-228). -/
def afm_apply (chunk : Chunk) (use_alias recalc : Bool) (m : Mut) : Mut :=
  if recalc || ! m.has_afm then
    update_score m (score_mutation_afm chunk (chunk.map (fun r => r.uniprot_id)) use_alias m)
  else m

/-- Model of the scoring loop of `calc_mutations_afm_scores` for a present
chunk (src/main.py lines 222-229): `uid_index` is the set of uniprot ids of
the chunk (set membership modelled by list membership); every selected
mutation is scored against the chunk and updated in place (the in-place
update of the task objects is rendered as a map of `afm_apply` over the
full record list); `successful` counts the tasks whose score is not
`None`. -/
def calc_step (chunk : Chunk) (use_alias recalc : Bool) (muts : List Mut) :
    List Mut × ℕ :=
  let uid_index := chunk.map (fun r => r.uniprot_id)
  let successful := (calc_tasks recalc muts).countP
    (fun m => (score_mutation_afm chunk uid_index use_alias m).isSome)
  (muts.map (afm_apply chunk use_alias recalc), successful)

/-- Model of `calc_mutations_afm_scores` (src/main.py lines 205-229).
`muts` is the mutation database traversed by `all_mutations()`.  When
`chunk` is `None`, the local variable `uid_index` is only assigned under
`if chunk is not None:` (line 222-223), so the first loop iteration over a
non-empty task list dereferences an unbound name (`NameError`), modelled as
`.error ()`; with no tasks the loop body never runs and the call returns
normally. -/
def calc_mutations_afm_scores (chunk : Option Chunk) (use_alias recalc : Bool)
    (muts : List Mut) : Except Unit (List Mut × ℕ) :=
  match chunk with
  | some c => .ok (calc_step c use_alias recalc muts)
  | none => if (calc_tasks recalc muts).isEmpty then .ok (muts, 0) else .error ()

/-- Helper for `chunksOf`: fuel-driven recursion (the fuel bounds the
number of produced chunks; `chunksOf` supplies the list length, which is
always enough when `n > 0`). -/
def chunksOfAux (n : ℕ) : ℕ → List α → List (List α)
  | _, [] => []
  | 0, _ => []
  | fuel + 1, x :: xs =>
    if n = 0 then []
    else (x :: xs).take n :: chunksOfAux n fuel ((x :: xs).drop n)

/-- Chunking of a list into consecutive slices of size `n` (the last slice
may be shorter). -/
def chunksOf (n : ℕ) (l : List α) : List (List α) :=
  chunksOfAux n l.length l

/-- Modelled from the spec: `utils.afm_iterator` is imported by src/main.py
(line 11) but utils.py in src/ does not define it.  Spec §4.5
(ChunkedScanner): a fresh call produces the chunks of the external dataset
in order, each of size at most `chunksize`, always starting again at
row 0. -/
def afm_iterator (chunksize : ℕ) (dataset : List ChunkRow) : List Chunk :=
  chunksOf chunksize dataset

/-- Model of one scan pass of the `score-AFM` action: fold
`calc_mutations_afm_scores` (with a present chunk, so the `.ok` branch of
the model, i.e. `calc_step`, and `recalc=False`) over a chunk sequence,
accumulating the mutation states and the total score count
(src/main.py lines 248-258). -/
def run_pass (use_alias : Bool) (chunks : List Chunk) (init : List Mut × ℕ) :
    List Mut × ℕ :=
  chunks.foldl (fun acc c =>
    let r := calc_step c use_alias false acc.1
    (r.1, acc.2 + r.2)) init

/-- Model of the `score-AFM` branch of `main` (src/main.py lines 241-259):
a full direct pass (`use_alias=False`) over `afm_iterator(...)`, then —
after it has completed — a second pass that re-invokes `afm_iterator` from
the start with `use_alias=True`, both with `recalc=False`. -/
def score_afm_action (chunksize : ℕ) (dataset : List ChunkRow) (muts : List Mut) :
    List Mut × ℕ :=
  let direct := run_pass false (afm_iterator chunksize dataset) (muts, 0)
  run_pass true (afm_iterator chunksize dataset) direct

/-- Command-line actions accepted by `--action` (src/main.py line 42). -/
inductive DBAction
  | initDB
  | updateDB
  | deleteDB
  | scoreESM
  | scoreEVE
  | scoreAFM
deriving DecidableEq

/-- Observable operations performed by the action loop of `main`. -/
inductive MainStep
  | builtDB
  | scoredAFM
deriving DecidableEq

/-- Model of the action loop of `main` (src/main.py lines 235-259) as the
trace of operations it performs: an `init-DB` action runs the database
build and then `return`s from `main`, ending the loop; a `score-AFM` action
runs the scoring pass and continues; the four remaining accepted actions
have no matching branch in the loop body and are silently skipped. -/
def main_actions : List DBAction → List MainStep
  | [] => []
  | DBAction.initDB :: _ => [MainStep.builtDB]
  | DBAction.scoreAFM :: rest => MainStep.scoredAFM :: main_actions rest
  | DBAction.updateDB :: rest => main_actions rest
  | DBAction.deleteDB :: rest => main_actions rest
  | DBAction.scoreESM :: rest => main_actions rest
  | DBAction.scoreEVE :: rest => main_actions rest

deriving instance DecidableEq for Except

/-- Truthiness of an `Except` result: did the call return without raising. -/
def is_ok : Except ε α → Bool
  | .ok _ => true
  | .error _ => false

/-- Concrete three-row batch (two proteins, protein A twice) used to
instantiate the partition-correctness theorem. -/
def dfC1 : List IRow :=
  [(0, ⟨some "A", "D17Y"⟩), (1, ⟨some "B", "A5T"⟩), (2, ⟨some "A", "R10Q"⟩)]

/-- Per-row outcome with an uncaught (non-timeout) exception at row 0. -/
def outErr0 : Nat → RowOutcome := fun i => if i == 0 then .err else .ok

/-- Concrete two-row, two-protein batch used for the worker-pool failure
counterexample. -/
def dfC5 : List IRow := [(0, ⟨some "A", "D17Y"⟩), (1, ⟨some "B", "A5T"⟩)]

/-- Concrete one-row batch whose single row has a missing protein key. -/
def dfC7 : List IRow := [(0, ⟨none, "D17Y"⟩)]

/-- Concrete chunk used for witness instantiations of the scoring claims. -/
def chunkW : Chunk := [⟨"P1", "A2B", 5⟩]

/-- Concrete mutation database used for witness instantiations: one
unscored mutation matched by `chunkW`, one already-scored mutation. -/
def mutsW : List Mut := [⟨"P1", [], "A2B", none⟩, ⟨"P2", [], "C3D", some 7⟩]

/-- The state of `mutsW` after one application of the scoring engine with
`chunkW`. -/
def mutsW1 : List Mut := [⟨"P1", [], "A2B", some 5⟩, ⟨"P2", [], "C3D", some 7⟩]

/-! ### Helper lemmas -/

theorem is_ok_map (x : Except PyError α) (f : α → β) : is_ok (x.map f) = is_ok x := by
  cases x <;> rfl

theorem pool_starmap_ok_iff (worker : α → Except PyError β) (ts : List α) :
    is_ok (pool_starmap worker ts) = true ↔ ∀ t ∈ ts, is_ok (worker t) = true := by
  induction ts with
  | nil => simp [pool_starmap, is_ok]
  | cons t ts ih =>
    simp only [pool_starmap, List.mem_cons]
    cases h : worker t with
    | error e => simp [is_ok, h]
    | ok b =>
      rw [is_ok_map, ih]
      constructor
      · intro hall x hx
        rcases hx with rfl | hx
        · simp [is_ok, h]
        · exact hall x hx
      · intro hall x hx
        exact hall x (Or.inr hx)

theorem pandas_eq_iff (x y : Option String) :
    pandas_eq x y = true ↔ ∃ a, x = some a ∧ y = some a := by
  cases x with
  | none => simp [pandas_eq]
  | some a =>
    cases y with
    | none => simp [pandas_eq]
    | some b =>
      simp only [pandas_eq, beq_iff_eq, Option.some.injEq]
      constructor
      · rintro rfl
        exact ⟨a, rfl, rfl⟩
      · rintro ⟨c, rfl, rfl⟩
        rfl

theorem create_skipped_from_rows (outcome : Nat → RowOutcome) :
    ∀ (rows : List IRow) (fs : List String) (sk : List Nat),
      create_new_records outcome rows fs = .ok sk → ∀ i ∈ sk, ∃ r ∈ rows, r.1 = i := by
  intro rows
  induction rows with
  | nil =>
    intro fs sk h i hi
    rw [create_new_records] at h
    cases h
    simp at hi
  | cons a rest ih =>
    obtain ⟨idx, row⟩ := a
    intro fs sk h i hi
    rw [create_new_records] at h
    cases hout : outcome idx with
    | ok =>
      rw [hout] at h
      obtain ⟨r, hr, hri⟩ := ih fs sk h i hi
      exact ⟨r, List.mem_cons_of_mem _ hr, hri⟩
    | err =>
      rw [hout] at h
      cases h
    | timeout =>
      rw [hout] at h
      by_cases hp : protein_record_path row.protein ∈ fs
      · rw [if_pos hp] at h
        by_cases hq : mutation_record_path row.protein row.variant ∈
            fs.erase (protein_record_path row.protein)
        · rw [if_pos hq] at h
          cases hrec : create_new_records outcome rest
              ((fs.erase (protein_record_path row.protein)).erase
                (mutation_record_path row.protein row.variant)) with
          | error e => rw [hrec] at h; cases h
          | ok sk' =>
            rw [hrec] at h
            cases h
            rcases List.mem_cons.mp hi with rfl | hi'
            · exact ⟨(i, row), List.mem_cons_self _ _, rfl⟩
            · obtain ⟨r, hr, hri⟩ := ih _ sk' hrec i hi'
              exact ⟨r, List.mem_cons_of_mem _ hr, hri⟩
        · rw [if_neg hq] at h
          cases h
      · rw [if_neg hp] at h
        cases h

theorem pool_starmap_mem_ok (worker : α → Except PyError (List Nat)) :
    ∀ (ts : List α) (ss : List (List Nat)),
      pool_starmap worker ts = .ok ss →
      ∀ i ∈ ss.flatten, ∃ t ∈ ts, ∃ s, worker t = .ok s ∧ i ∈ s := by
  intro ts
  induction ts with
  | nil =>
    intro ss h i hi
    rw [pool_starmap] at h
    cases h
    simp at hi
  | cons t ts ih =>
    intro ss h i hi
    rw [pool_starmap] at h
    cases hw : worker t with
    | error e =>
      rw [hw] at h
      cases h
    | ok b =>
      rw [hw] at h
      cases hrec : pool_starmap worker ts with
      | error e =>
        rw [hrec] at h
        cases h
      | ok bs =>
        rw [hrec] at h
        cases h
        rw [List.flatten_cons] at hi
        rcases List.mem_append.mp hi with hb | hbs
        · exact ⟨t, List.mem_cons_self _ _, b, hw, hb⟩
        · obtain ⟨t', ht', s, hws, his⟩ := ih bs hrec i hbs
          exact ⟨t', List.mem_cons_of_mem _ ht', s, hws, his⟩

theorem mem_build_tasks_protein (df : List IRow) (g : List IRow)
    (hg : g ∈ build_tasks df) (r : IRow) (hr : r ∈ g) : r.2.protein ≠ none := by
  rw [build_tasks] at hg
  rcases List.mem_append.mp hg with hrep | huni
  · obtain ⟨v, _, rfl⟩ := List.mem_map.mp hrep
    have := (List.mem_filter.mp hr).2
    obtain ⟨a, ha, _⟩ := (pandas_eq_iff _ _).mp this
    simp [ha]
  · obtain ⟨v, _, rfl⟩ := List.mem_map.mp huni
    have := (List.mem_filter.mp hr).2
    obtain ⟨a, ha, _⟩ := (pandas_eq_iff _ _).mp this
    simp [ha]

/-! ### Theorems for the claims -/

/-- C9 (confirmed): once the action loop of `main` reaches an `init-DB`
action it runs the database build and returns from `main`; every action
after the first `init-DB` in the list is never executed, so the executed
trace is the same as if the list ended at that `init-DB`. -/
theorem main_returns_after_first_initdb (pre post : List DBAction) :
    main_actions (pre ++ DBAction.initDB :: post) =
      main_actions (pre ++ [DBAction.initDB]) := by
  induction pre with
  | nil => rfl
  | cons a pre ih =>
    cases a
    · rfl
    · exact ih
    · exact ih
    · exact ih
    · exact ih
    · exact congrArg (fun l => MainStep.scoredAFM :: l) ih

/-- C6 (counterexample): the chunk-size computation is not `≥ 1` for every
configuration: with the low-memory budget fraction 0.25, `row_byte_cost`
32 (the AFM row size) and 100 bytes of available RAM, the floor formula
yields 0. -/
theorem adaptive_chunksize_zero_cex :
    adaptive_chunksize AFM_ROWSIZE LOW_MEM_RAM_USAGE 100 = 0 := by
  rw [adaptive_chunksize, AFM_ROWSIZE, LOW_MEM_RAM_USAGE, Int.floor_eq_iff]
  norm_num

/-- C6 (amended): the chunk-size computation returns exactly
`floor(ram_budget_fraction * available_ram / row_byte_cost)`, equal inputs
give equal outputs, and with the budget and RAM fixed it is monotonically
non-increasing in the row byte cost; the result is at least 1 whenever the
row byte cost does not exceed the RAM budget (otherwise it can be 0). -/
theorem adaptive_chunksize_spec (rowsize ram_usage ram : ℚ) (hrow : 0 < rowsize) :
    (adaptive_chunksize rowsize ram_usage ram = ⌊ram_usage * ram / rowsize⌋) ∧
    (∀ r1 u1 a1 : ℚ, r1 = rowsize → u1 = ram_usage → a1 = ram →
      adaptive_chunksize r1 u1 a1 = adaptive_chunksize rowsize ram_usage ram) ∧
    (∀ rowsize2 : ℚ, rowsize ≤ rowsize2 → 0 ≤ ram_usage * ram →
      adaptive_chunksize rowsize2 ram_usage ram ≤ adaptive_chunksize rowsize ram_usage ram) ∧
    (rowsize ≤ ram_usage * ram → 1 ≤ adaptive_chunksize rowsize ram_usage ram) := by
  refine ⟨rfl, ?_, ?_, ?_⟩
  · rintro r1 u1 a1 rfl rfl rfl
    rfl
  · intro r2 h12 hnn
    exact Int.floor_le_floor (div_le_div_of_nonneg_left hnn hrow h12)
  · intro hle
    rw [adaptive_chunksize, Int.le_floor]
    push_cast
    rw [le_div_iff₀ hrow, one_mul]
    exact hle

/-- Witness for `adaptive_chunksize_spec` at budget 1/4, RAM 256, row cost 32. -/
theorem adaptive_chunksize_spec_witness :
    (0 < (32 : ℚ)) ∧
    ((adaptive_chunksize 32 (1/4) 256 = ⌊(1/4 : ℚ) * 256 / 32⌋) ∧
    (∀ r1 u1 a1 : ℚ, r1 = 32 → u1 = 1/4 → a1 = 256 →
      adaptive_chunksize r1 u1 a1 = adaptive_chunksize 32 (1/4) 256) ∧
    (∀ rowsize2 : ℚ, 32 ≤ rowsize2 → 0 ≤ (1/4 : ℚ) * 256 →
      adaptive_chunksize rowsize2 (1/4) 256 ≤ adaptive_chunksize 32 (1/4) 256) ∧
    ((32 : ℚ) ≤ (1/4 : ℚ) * 256 → 1 ≤ adaptive_chunksize 32 (1/4) 256)) :=
  ⟨by norm_num, adaptive_chunksize_spec 32 (1/4) 256 (by norm_num)⟩

/-- C8 (confirmed): when `calc_mutations_afm_scores` is called with
`chunk=None` and at least one unscored mutation is pending, the scoring
loop dereferences the unassigned local `uid_index` and the call fails with
an unbound-variable error instead of scoring or skipping mutations. -/
theorem calc_afm_none_chunk_unbound (use_alias recalc : Bool) (muts : List Mut)
    (h : ∃ m ∈ muts, m.has_afm = false) :
    calc_mutations_afm_scores none use_alias recalc muts = .error () := by
  obtain ⟨m, hm, hs⟩ := h
  have htasks : (calc_tasks recalc muts).isEmpty = false := by
    rw [List.isEmpty_eq_false_iff_exists_mem]
    cases recalc with
    | false =>
      exact ⟨m, List.mem_filter.mpr ⟨hm, by simp [hs]⟩⟩
    | true => exact ⟨m, hm⟩
  simp [calc_mutations_afm_scores, htasks]

/-- Witness for `calc_afm_none_chunk_unbound`. -/
theorem calc_afm_none_chunk_unbound_witness :
    (∃ m ∈ mutsW, m.has_afm = false) ∧
    calc_mutations_afm_scores none false false mutsW = .error () :=
  ⟨by decide, calc_afm_none_chunk_unbound false false mutsW (by decide)⟩

/-- C2 (counterexample): a per-row failure that is not a `TimeoutError`
(row 0 raises some other exception) is not recorded in the skipped list:
`create_new_records` aborts with the uncaught exception, row 1 is never
processed, and the result claimed by the spec (`.ok [0]`) is not
produced. -/
theorem create_nontimeout_aborts_cex :
    create_new_records outErr0 [(0, ⟨some "G1", "D17Y"⟩), (1, ⟨some "G2", "A5T"⟩)] [] =
      .error .uncaught ∧
    create_new_records outErr0 [(0, ⟨some "G1", "D17Y"⟩), (1, ⟨some "G2", "A5T"⟩)] [] ≠
      .ok [0] := by
  constructor
  · decide
  · decide

/-- C2 (amended): only `TimeoutError` is caught by the row loop: a row that
times out while both literal cleanup paths exist on disk has its index
recorded in the skipped list and processing continues with the remaining
rows; a row failing with any other exception aborts the whole group. -/
theorem create_timeout_skips_and_continues (outcome : Nat → RowOutcome) (idx : Nat)
    (row : Row) (rest : List IRow) (fs : List String)
    (ht : outcome idx = .timeout)
    (hp : protein_record_path row.protein ∈ fs)
    (hq : mutation_record_path row.protein row.variant ∈
      fs.erase (protein_record_path row.protein)) :
    create_new_records outcome ((idx, row) :: rest) fs =
      (create_new_records outcome rest
        ((fs.erase (protein_record_path row.protein)).erase
          (mutation_record_path row.protein row.variant))).map (fun sk => idx :: sk) ∧
    (∀ (out2 : Nat → RowOutcome) (i2 : Nat) (r2 : Row) (rs2 : List IRow) (fs2 : List String),
      out2 i2 = .err → create_new_records out2 ((i2, r2) :: rs2) fs2 = .error .uncaught) := by
  constructor
  · simp only [create_new_records, ht, if_pos hp, if_pos hq]
  · intro out2 i2 r2 rs2 fs2 h2
    simp only [create_new_records, h2]

/-- Witness for `create_timeout_skips_and_continues`: a one-row group whose
row times out with both cleanup files present; the row's index 0 is
recorded and the (empty) remainder is still processed. -/
theorem create_timeout_skips_and_continues_witness :
    ((fun _ : Nat => RowOutcome.timeout) 0 = RowOutcome.timeout) ∧
    (protein_record_path (some "G") ∈ ["DB\\test_p\\G", "DB\\test_m\\G_D.txt"]) ∧
    (mutation_record_path (some "G") "D" ∈
      (["DB\\test_p\\G", "DB\\test_m\\G_D.txt"].erase (protein_record_path (some "G")))) ∧
    (create_new_records (fun _ => .timeout) [(0, ⟨some "G", "D"⟩)]
        ["DB\\test_p\\G", "DB\\test_m\\G_D.txt"] =
      (create_new_records (fun _ => .timeout) []
        (((["DB\\test_p\\G", "DB\\test_m\\G_D.txt"].erase
            (protein_record_path (some "G"))).erase
          (mutation_record_path (some "G") "D")))).map (fun sk => 0 :: sk) ∧
    (∀ (out2 : Nat → RowOutcome) (i2 : Nat) (r2 : Row) (rs2 : List IRow) (fs2 : List String),
      out2 i2 = .err → create_new_records out2 ((i2, r2) :: rs2) fs2 = .error .uncaught)) :=
  ⟨rfl, by decide, by decide,
    create_timeout_skips_and_continues (fun _ => .timeout) 0 ⟨some "G", "D"⟩ []
      ["DB\\test_p\\G", "DB\\test_m\\G_D.txt"] rfl (by decide) (by decide)⟩

/-- C10 (confirmed): on a `TimeoutError` the cleanup deletes the two
record files at the literal relative paths `DB\test_p\{gene}` and
`DB\test_m\{gene}_{mut_desc}.txt` — which differ from the configured
`PROTEIN_PATH`/`MUTATION_PATH` locations for every possible root directory
— before appending the row's index to the skipped list and continuing; if
either literal path does not exist, `os.remove` raises `FileNotFoundError`,
which is not caught, and the group is aborted. -/
theorem timeout_removal_literal_paths (outcome : Nat → RowOutcome) (idx : Nat)
    (row : Row) (rest : List IRow) (fs : List String)
    (ht : outcome idx = .timeout) :
    (∀ root : String,
      protein_record_path row.protein ≠
        pjoin (PROTEIN_PATH root) (value_str row.protein) ∧
      mutation_record_path row.protein row.variant ≠
        pjoin (MUTATION_PATH root) (value_str row.protein ++ "_" ++ row.variant ++ ".txt")) ∧
    (protein_record_path row.protein ∉ fs →
      create_new_records outcome ((idx, row) :: rest) fs =
        .error (.fileNotFound (protein_record_path row.protein))) ∧
    (protein_record_path row.protein ∈ fs →
      mutation_record_path row.protein row.variant ∉
        fs.erase (protein_record_path row.protein) →
      create_new_records outcome ((idx, row) :: rest) fs =
        .error (.fileNotFound (mutation_record_path row.protein row.variant))) ∧
    (protein_record_path row.protein ∈ fs →
      mutation_record_path row.protein row.variant ∈
        fs.erase (protein_record_path row.protein) →
      create_new_records outcome ((idx, row) :: rest) fs =
        (create_new_records outcome rest
          ((fs.erase (protein_record_path row.protein)).erase
            (mutation_record_path row.protein row.variant))).map (fun sk => idx :: sk)) := by
  refine ⟨?_, ?_, ?_, ?_⟩
  · intro root
    have l1 : ("DB\\test_p\\" : String).length = 10 := by decide
    have l2 : ("DB\\test_m\\" : String).length = 10 := by decide
    have l3 : ("DB" : String).length = 2 := by decide
    have l4 : ("test_p" : String).length = 6 := by decide
    have l5 : ("test_m" : String).length = 6 := by decide
    have l6 : ("/" : String).length = 1 := by decide
    constructor
    · intro h
      have := congrArg String.length h
      simp only [protein_record_path, pjoin, PROTEIN_PATH, DB_PATH,
        String.length_append, l1, l3, l4, l6] at this
      omega
    · intro h
      have := congrArg String.length h
      simp only [mutation_record_path, pjoin, MUTATION_PATH, DB_PATH,
        String.length_append, l2, l3, l5, l6] at this
      omega
  · intro hp
    simp only [create_new_records, ht, if_neg hp]
  · intro hp hq
    simp only [create_new_records, ht, if_pos hp, if_neg hq]
  · intro hp hq
    simp only [create_new_records, ht, if_pos hp, if_pos hq]

/-- Witness for `timeout_removal_literal_paths`: a timed-out row with an
empty filesystem, where the first removal aborts the group. -/
theorem timeout_removal_literal_paths_witness :
    ((fun _ : Nat => RowOutcome.timeout) 0 = RowOutcome.timeout) ∧
    ((∀ root : String,
      protein_record_path (some "G") ≠ pjoin (PROTEIN_PATH root) (value_str (some "G")) ∧
      mutation_record_path (some "G") "D" ≠
        pjoin (MUTATION_PATH root) (value_str (some "G") ++ "_" ++ "D" ++ ".txt")) ∧
    (protein_record_path (some "G") ∉ ([] : List String) →
      create_new_records (fun _ => .timeout) [(0, ⟨some "G", "D"⟩)] [] =
        .error (.fileNotFound (protein_record_path (some "G")))) ∧
    (protein_record_path (some "G") ∈ ([] : List String) →
      mutation_record_path (some "G") "D" ∉
        ([] : List String).erase (protein_record_path (some "G")) →
      create_new_records (fun _ => .timeout) [(0, ⟨some "G", "D"⟩)] [] =
        .error (.fileNotFound (mutation_record_path (some "G") "D"))) ∧
    (protein_record_path (some "G") ∈ ([] : List String) →
      mutation_record_path (some "G") "D" ∈
        ([] : List String).erase (protein_record_path (some "G")) →
      create_new_records (fun _ => .timeout) [(0, ⟨some "G", "D"⟩)] [] =
        (create_new_records (fun _ => .timeout) []
          ((([] : List String).erase (protein_record_path (some "G"))).erase
            (mutation_record_path (some "G") "D"))).map (fun sk => 0 :: sk))) :=
  ⟨rfl, timeout_removal_literal_paths (fun _ => .timeout) 0 ⟨some "G", "D"⟩ [] [] rfl⟩

/-- C5 (counterexample): an uncaught exception in the worker of one
row-group makes `build_db` raise instead of returning an aggregated
report: with two one-row groups where only the first crashes, `build_db`
propagates the exception even though the second group on its own completes
successfully with no skipped rows. -/
theorem build_db_partial_failure_cex :
    build_db outErr0 [] dfC5 = .error .uncaught ∧
    create_new_records outErr0 [(1, ⟨some "B", "A5T"⟩)] [] = .ok [] := by
  constructor
  · decide
  · decide

/-- C5 (amended): `build_db` returns an aggregated skipped report exactly
when every row-group's worker returns without an uncaught exception; if
any worker raises, the pool re-raises the exception and `build_db`
propagates it, returning no report (partial failure is treated as total
failure). -/
theorem build_db_report_iff_all_groups_ok (outcome : Nat → RowOutcome)
    (fs : List String) (df : List IRow) :
    is_ok (build_db outcome fs df) = true ↔
      ∀ g ∈ build_tasks df, is_ok (create_new_records outcome g fs) = true := by
  rw [build_db, is_ok_map]
  exact pool_starmap_ok_iff _ _

/-- Witness for `build_db_report_iff_all_groups_ok` at the concrete batch
`dfC5` with an all-success outcome. -/
theorem build_db_report_iff_all_groups_ok_witness :
    is_ok (build_db (fun _ => RowOutcome.ok) [] dfC5) = true ↔
      ∀ g ∈ build_tasks dfC5,
        is_ok (create_new_records (fun _ => RowOutcome.ok) g []) = true :=
  build_db_report_iff_all_groups_ok (fun _ => .ok) [] dfC5

/-- C7 (counterexample): a row whose protein (subject) key is missing is
silently dropped by ingestion, with no validation error recorded: for the
one-row batch `dfC7` (protein value NaN), the row is assigned to no
row-group (the flattened groups are empty, because pandas `==` never
matches NaN), and `build_db` returns an empty failure report instead of a
recorded failure for row index 0. -/
theorem missing_key_silently_dropped_cex :
    (0, (⟨none, "D17Y"⟩ : Row)) ∈ dfC7 ∧
    (build_tasks dfC7).flatten = [] ∧
    build_db (fun _ => .ok) [] dfC7 = .ok [] := by
  refine ⟨by decide, by decide, by decide⟩

/-- C7 (amended): rows lacking a subject key are dropped silently, not
rejected with a recorded validation error: no row-group built by `build_db`
ever contains a row with a missing protein key, and every failure index in
a successful build report comes from a row of some row-group — so a
missing-key row neither reaches a worker nor contributes a recorded
failure. -/
theorem missing_key_rows_dropped (df : List IRow) :
    (∀ g ∈ build_tasks df, ∀ r ∈ g, r.2.protein ≠ none) ∧
    (∀ (outcome : Nat → RowOutcome) (fs : List String) (sk : List Nat),
      build_db outcome fs df = .ok sk →
      ∀ i ∈ sk, ∃ g ∈ build_tasks df, ∃ r ∈ g, r.1 = i) := by
  constructor
  · intro g hg r hr
    exact mem_build_tasks_protein df g hg r hr
  · intro outcome fs sk hdb i hi
    rw [build_db] at hdb
    cases hpool : pool_starmap (fun g => create_new_records outcome g fs) (build_tasks df) with
    | error e =>
      rw [hpool] at hdb
      cases hdb
    | ok ss =>
      rw [hpool] at hdb
      cases hdb
      obtain ⟨g, hg, s, hws, his⟩ := pool_starmap_mem_ok _ _ ss hpool i hi
      obtain ⟨r, hr, hri⟩ := create_skipped_from_rows outcome g fs s hws i his
      exact ⟨g, hg, r, hr, hri⟩

/-- Witness for `missing_key_rows_dropped` at the concrete batch `dfC7`. -/
theorem missing_key_rows_dropped_witness :
    (∀ g ∈ build_tasks dfC7, ∀ r ∈ g, r.2.protein ≠ none) ∧
    (∀ (outcome : Nat → RowOutcome) (fs : List String) (sk : List Nat),
      build_db outcome fs dfC7 = .ok sk →
      ∀ i ∈ sk, ∃ g ∈ build_tasks dfC7, ∃ r ∈ g, r.1 = i) :=
  missing_key_rows_dropped dfC7

theorem calc_step_fst (c : Chunk) (ua rc : Bool) (muts : List Mut) :
    (calc_step c ua rc muts).1 = muts.map (afm_apply c ua rc) := rfl

theorem afm_apply_scored_fix (c : Chunk) (ua : Bool) (m : Mut)
    (h : m.has_afm = true) : afm_apply c ua false m = m := by
  rw [afm_apply, if_neg]
  simp [h]

theorem afm_apply_idem (c : Chunk) (ua : Bool) (m : Mut) :
    afm_apply c ua false (afm_apply c ua false m) = afm_apply c ua false m := by
  by_cases h : m.has_afm = true
  · rw [afm_apply_scored_fix c ua m h, afm_apply_scored_fix c ua m h]
  · have hb : (false || ! m.has_afm) = true := by simp [h]
    have hin : afm_apply c ua false m =
        update_score m (score_mutation_afm c (c.map (fun r => r.uniprot_id)) ua m) := by
      rw [afm_apply, if_pos hb]
    rw [hin]
    cases hs : score_mutation_afm c (c.map (fun r => r.uniprot_id)) ua m with
    | none =>
      have hupd : update_score m none = m := rfl
      rw [hupd, afm_apply, if_pos hb, hs, hupd]
    | some v =>
      have hsc : (update_score m (some v)).has_afm = true := rfl
      exact afm_apply_scored_fix c ua _ hsc

theorem calc_step_idem (c : Chunk) (ua : Bool) (muts : List Mut) :
    (calc_step c ua false (calc_step c ua false muts).1).1 =
      (calc_step c ua false muts).1 := by
  rw [calc_step_fst, calc_step_fst, List.map_map]
  apply List.map_congr_left
  intro m _
  exact afm_apply_idem c ua m

/-- C3 (confirmed): with `recalc` disabled, `calc_mutations_afm_scores`
never selects an already-scored mutation as a task, and applying the
scoring engine a second time with the same chunk returns the same variant
states as the first application. -/
theorem afm_scoring_idempotent (c : Chunk) (use_alias : Bool)
    (muts m1 : List Mut) (s1 : ℕ)
    (h : calc_mutations_afm_scores (some c) use_alias false muts = .ok (m1, s1)) :
    (∀ m ∈ muts, m.has_afm = true → m ∉ calc_tasks false muts) ∧
    ∃ s2, calc_mutations_afm_scores (some c) use_alias false m1 = .ok (m1, s2) := by
  have h' : calc_step c use_alias false muts = (m1, s1) := by
    rw [calc_mutations_afm_scores] at h
    exact Except.ok.inj h
  have hm1 : m1 = (calc_step c use_alias false muts).1 := by rw [h']
  constructor
  · intro m _ hs hmem
    have : (! m.has_afm) = true := (List.mem_filter.mp hmem).2
    simp [hs] at this
  · have hfix : (calc_step c use_alias false m1).1 = m1 := by
      rw [hm1]
      exact calc_step_idem c use_alias muts
    refine ⟨(calc_step c use_alias false m1).2, ?_⟩
    rw [calc_mutations_afm_scores]
    exact congrArg Except.ok (Prod.ext hfix rfl)

/-- Witness for `afm_scoring_idempotent` on a one-row chunk and a two-record
database (one matching unscored record, one already-scored record). -/
theorem afm_scoring_idempotent_witness :
    (calc_mutations_afm_scores (some chunkW) false false mutsW = .ok (mutsW1, 1)) ∧
    ((∀ m ∈ mutsW, m.has_afm = true → m ∉ calc_tasks false mutsW) ∧
    ∃ s2, calc_mutations_afm_scores (some chunkW) false false mutsW1 = .ok (mutsW1, s2)) :=
  ⟨by decide, afm_scoring_idempotent chunkW false mutsW mutsW1 1 (by decide)⟩

theorem chunksOfAux_flatten (n : ℕ) (hn : 0 < n) :
    ∀ (fuel : ℕ) (l : List α), l.length ≤ fuel → (chunksOfAux n fuel l).flatten = l := by
  intro fuel
  induction fuel with
  | zero =>
    intro l hl
    cases l with
    | nil => rfl
    | cons x xs => simp at hl
  | succ f ih =>
    intro l hl
    cases l with
    | nil => rfl
    | cons x xs =>
      rw [chunksOfAux, if_neg (Nat.pos_iff_ne_zero.mp hn), List.flatten_cons,
        ih ((x :: xs).drop n) (by rw [List.length_drop]; simp at hl ⊢; omega)]
      exact List.take_append_drop n (x :: xs)

theorem chunksOf_flatten (n : ℕ) (hn : 0 < n) (l : List α) :
    (chunksOf n l).flatten = l :=
  chunksOfAux_flatten n hn l.length l le_rfl

theorem pres_afm_trans {a b c : List Mut}
    (hab : List.Forall₂ (fun x y => x.has_afm = true → y = x) a b)
    (hbc : List.Forall₂ (fun x y => x.has_afm = true → y = x) b c) :
    List.Forall₂ (fun x y => x.has_afm = true → y = x) a c := by
  induction hab generalizing c with
  | nil =>
    cases hbc
    exact .nil
  | cons hxy hrest ih =>
    cases hbc with
    | cons hyz hrest2 =>
      refine .cons ?_ (ih hrest2)
      intro hx
      have hy := hxy hx
      have hz := hyz (by rw [hy]; exact hx)
      rw [hz, hy]

theorem pres_afm_map (l : List Mut) (g : Mut → Mut)
    (hg : ∀ m, m.has_afm = true → g m = m) :
    List.Forall₂ (fun x y => x.has_afm = true → y = x) l (l.map g) := by
  induction l with
  | nil => exact .nil
  | cons x xs ih => exact .cons (fun hx => hg x hx) ih

theorem run_pass_pres (ua : Bool) (chunks : List Chunk) :
    ∀ init : List Mut × ℕ,
      List.Forall₂ (fun x y => x.has_afm = true → y = x)
        init.1 (run_pass ua chunks init).1 := by
  induction chunks with
  | nil =>
    intro init
    exact List.forall₂_same.mpr (fun x _ _ => rfl)
  | cons c cs ih =>
    intro init
    have hstep : run_pass ua (c :: cs) init = run_pass ua cs
        ((calc_step c ua false init.1).1, init.2 + (calc_step c ua false init.1).2) := rfl
    rw [hstep]
    refine pres_afm_trans ?_ (ih _)
    rw [calc_step_fst]
    exact pres_afm_map _ _ (fun m hm => afm_apply_scored_fix c ua m hm)

/-- C4 (confirmed): the alias pass of the `score-AFM` action is a second,
independent full scan that re-invokes the chunk iterator from row 0 (a
fresh `afm_iterator` call covers the whole dataset in order from the first
row), it starts only after the direct pass's fold over all chunks has
finished, and — running with `recalc=False` — it leaves every variant
already scored at the end of the direct pass unchanged, operating only on
the still-unscored ones. -/
theorem alias_pass_restarts_and_skips_scored (n : ℕ) (ds : List ChunkRow)
    (muts : List Mut) (hn : 0 < n) :
    (afm_iterator n ds).flatten = ds ∧
    List.Forall₂ (fun a b => a.has_afm = true → b = a)
      (run_pass false (afm_iterator n ds) (muts, 0)).1
      (score_afm_action n ds muts).1 := by
  constructor
  · exact chunksOf_flatten n hn ds
  · have hdef : score_afm_action n ds muts =
        run_pass true (afm_iterator n ds) (run_pass false (afm_iterator n ds) (muts, 0)) := rfl
    rw [hdef]
    exact run_pass_pres true (afm_iterator n ds) _

/-- Witness for `alias_pass_restarts_and_skips_scored` with chunk size 1. -/
theorem alias_pass_restarts_and_skips_scored_witness :
    0 < 1 ∧
    ((afm_iterator 1 chunkW).flatten = chunkW ∧
    List.Forall₂ (fun a b => a.has_afm = true → b = a)
      (run_pass false (afm_iterator 1 chunkW) (mutsW, 0)).1
      (score_afm_action 1 chunkW mutsW).1) :=
  ⟨by decide, alias_pass_restarts_and_skips_scored 1 chunkW mutsW (by decide)⟩

theorem hash_eq_iff (x y : Option String) : hash_eq x y = true ↔ x = y := by
  cases x <;> cases y <;> simp [hash_eq]

theorem pandas_eq_self (x : Option String) (hx : x ≠ none) : pandas_eq x x = true := by
  cases x with
  | none => exact absurd rfl hx
  | some a => simp [pandas_eq]

theorem any_hash_eq (k : Option String) (seen : List (Option String)) :
    (seen.any (fun x => hash_eq k x)) = true ↔ k ∈ seen := by
  rw [List.any_eq_true]
  constructor
  · rintro ⟨x, hx, hk⟩
    rw [(hash_eq_iff k x).mp hk]
    exact hx
  · intro hk
    exact ⟨k, hk, (hash_eq_iff k k).mpr rfl⟩

theorem mem_unique_aux (x : Option String) (ks : List (Option String)) :
    ∀ seen, x ∈ unique_aux seen ks ↔ (x ∈ ks ∧ x ∉ seen) := by
  induction ks with
  | nil =>
    intro seen
    simp [unique_aux]
  | cons k ks ih =>
    intro seen
    rw [unique_aux]
    by_cases hk : (seen.any (fun y => hash_eq k y)) = true
    · rw [if_pos hk, ih seen]
      have hkseen : k ∈ seen := (any_hash_eq k seen).mp hk
      constructor
      · rintro ⟨hxks, hxs⟩
        exact ⟨List.mem_cons_of_mem _ hxks, hxs⟩
      · rintro ⟨hxkks, hxs⟩
        rcases List.mem_cons.mp hxkks with rfl | hxks
        · exact absurd hkseen hxs
        · exact ⟨hxks, hxs⟩
    · rw [if_neg hk]
      have hkseen : k ∉ seen := fun hm => hk ((any_hash_eq k seen).mpr hm)
      constructor
      · intro hmem
        rcases List.mem_cons.mp hmem with rfl | hmem'
        · exact ⟨List.mem_cons_self _ _, hkseen⟩
        · obtain ⟨hxks, hxns⟩ := (ih (k :: seen)).mp hmem'
          exact ⟨List.mem_cons_of_mem _ hxks,
            fun hxs => hxns (List.mem_cons_of_mem _ hxs)⟩
      · rintro ⟨hxkks, hxs⟩
        rcases List.mem_cons.mp hxkks with rfl | hxks
        · exact List.mem_cons_self _ _
        · by_cases hxk : x = k
          · rw [hxk]
            exact List.mem_cons_self _ _
          · refine List.mem_cons_of_mem _ ((ih (k :: seen)).mpr ⟨hxks, ?_⟩)
            intro hxkseen
            rcases List.mem_cons.mp hxkseen with h1 | h2
            · exact hxk h1
            · exact hxs h2

theorem nodup_unique_aux (ks : List (Option String)) :
    ∀ seen, (unique_aux seen ks).Nodup := by
  induction ks with
  | nil =>
    intro seen
    simp [unique_aux]
  | cons k ks ih =>
    intro seen
    rw [unique_aux]
    by_cases hk : (seen.any (fun y => hash_eq k y)) = true
    · rw [if_pos hk]
      exact ih seen
    · rw [if_neg hk, List.nodup_cons]
      refine ⟨?_, ih (k :: seen)⟩
      intro hmem
      exact ((mem_unique_aux k ks (k :: seen)).mp hmem).2 (List.mem_cons_self _ _)

theorem mem_unique_col (x : Option String) (ks : List (Option String)) :
    x ∈ unique_col ks ↔ x ∈ ks := by
  rw [unique_col, mem_unique_aux]
  simp

theorem nodup_unique_col (ks : List (Option String)) : (unique_col ks).Nodup :=
  nodup_unique_aux ks []

theorem join_values_iter_perm :
    ∀ (ks : List (Option String)) (l : List IRow),
      (∀ r ∈ l, r.2.protein ≠ none) →
      (∀ r ∈ l, r.2.protein ∈ ks) →
      ks.Nodup →
      List.Perm ((ks.map (fun v => values_iter v l)).flatten) l := by
  intro ks
  induction ks with
  | nil =>
    intro l _ hcov _
    cases l with
    | nil => simp
    | cons r l => exact absurd (hcov r (List.mem_cons_self _ _)) (List.not_mem_nil _)
  | cons v ks ih =>
    intro l hsome hcov hnd
    rw [List.map_cons, List.flatten_cons]
    have hvks : v ∉ ks := (List.nodup_cons.mp hnd).1
    have hmapeq : ∀ u ∈ ks, values_iter u l =
        values_iter u (l.filter (fun t => ! pandas_eq t.2.protein v)) := by
      intro u hu
      rw [values_iter, values_iter, List.filter_filter]
      apply List.filter_congr
      intro r hrl
      cases hpu : pandas_eq r.2.protein u with
      | false => simp
      | true =>
        have hne : pandas_eq r.2.protein v = false := by
          cases hpv : pandas_eq r.2.protein v with
          | false => rfl
          | true =>
            exfalso
            obtain ⟨a, ha1, ha2⟩ := (pandas_eq_iff _ _).mp hpu
            obtain ⟨b, hb1, hb2⟩ := (pandas_eq_iff _ _).mp hpv
            rw [ha1] at hb1
            have huv : u = v := by
              rw [ha2, hb2, ← hb1]
            rw [← huv] at hvks
            exact hvks hu
        simp [hne]
    have hsome' : ∀ r ∈ l.filter (fun t => ! pandas_eq t.2.protein v),
        r.2.protein ≠ none :=
      fun r h => hsome r (List.mem_filter.mp h).1
    have hcov' : ∀ r ∈ l.filter (fun t => ! pandas_eq t.2.protein v),
        r.2.protein ∈ ks := by
      intro r hrl'
      have hrl := (List.mem_filter.mp hrl').1
      have hnp := (List.mem_filter.mp hrl').2
      rcases List.mem_cons.mp (hcov r hrl) with hpv | hks
      · exfalso
        have hps := pandas_eq_self r.2.protein (hsome r hrl)
        rw [show pandas_eq r.2.protein r.2.protein =
            pandas_eq r.2.protein v from by rw [← hpv]] at hps
        rw [hps] at hnp
        simp at hnp
      · exact hks
    have hperm' := ih (l.filter (fun t => ! pandas_eq t.2.protein v)) hsome' hcov'
      (List.nodup_cons.mp hnd).2
    rw [List.map_congr_left hmapeq]
    exact List.Perm.trans (List.Perm.append_left _ hperm') (List.filter_append_perm _ l)

theorem build_tasks_eq (df : List IRow) :
    build_tasks df =
      (unique_col ((df.filter (fun r => duplicated_keep_false df r)).map
        (fun r => r.2.protein))).map
          (fun v => values_iter v (df.filter (fun r => duplicated_keep_false df r))) ++
      (unique_col ((df.filter (fun r => ! duplicated_keep_false df r)).map
        (fun r => r.2.protein))).map
          (fun v => values_iter v (df.filter (fun r => ! duplicated_keep_false df r))) := rfl

/-- C1 (confirmed): for a batch in which every row carries a subject key,
the row-groups built by `build_db` partition the batch by subject key: the
flattened groups are a permutation of the input (every row appears exactly
once across the groups), any two rows with the same protein key share a
group, and each group is a sublist of the input (rows keep their original
relative order). -/
theorem build_db_partition_correct (df : List IRow)
    (hkeys : ∀ r ∈ df, r.2.protein ≠ none) :
    List.Perm (build_tasks df).flatten df ∧
    (∀ r ∈ df, ∀ s ∈ df, r.2.protein = s.2.protein →
      ∃ g ∈ build_tasks df, r ∈ g ∧ s ∈ g) ∧
    (∀ g ∈ build_tasks df, g.Sublist df) := by
  refine ⟨?_, ?_, ?_⟩
  · rw [build_tasks_eq, List.flatten_append]
    have hrep := join_values_iter_perm
      (unique_col ((df.filter (fun r => duplicated_keep_false df r)).map
        (fun r => r.2.protein)))
      (df.filter (fun r => duplicated_keep_false df r))
      (fun r h => hkeys r (List.mem_filter.mp h).1)
      (fun r h => (mem_unique_col _ _).mpr (List.mem_map.mpr ⟨r, h, rfl⟩))
      (nodup_unique_col _)
    have huniq := join_values_iter_perm
      (unique_col ((df.filter (fun r => ! duplicated_keep_false df r)).map
        (fun r => r.2.protein)))
      (df.filter (fun r => ! duplicated_keep_false df r))
      (fun r h => hkeys r (List.mem_filter.mp h).1)
      (fun r h => (mem_unique_col _ _).mpr (List.mem_map.mpr ⟨r, h, rfl⟩))
      (nodup_unique_col _)
    exact (hrep.append huniq).trans (List.filter_append_perm _ df)
  · intro r hr s hs hkey
    have hdupeq : duplicated_keep_false df s = duplicated_keep_false df r := by
      rw [duplicated_keep_false, duplicated_keep_false, hkey]
    by_cases hdup : duplicated_keep_false df r = true
    · have hrside : r ∈ df.filter (fun t => duplicated_keep_false df t) :=
        List.mem_filter.mpr ⟨hr, hdup⟩
      have hsside : s ∈ df.filter (fun t => duplicated_keep_false df t) :=
        List.mem_filter.mpr ⟨hs, by rw [hdupeq]; exact hdup⟩
      refine ⟨values_iter r.2.protein (df.filter (fun t => duplicated_keep_false df t)),
        ?_, ?_, ?_⟩
      · rw [build_tasks_eq]
        refine List.mem_append_left _ (List.mem_map.mpr ⟨r.2.protein, ?_, rfl⟩)
        exact (mem_unique_col _ _).mpr (List.mem_map.mpr ⟨r, hrside, rfl⟩)
      · exact List.mem_filter.mpr ⟨hrside, pandas_eq_self _ (hkeys r hr)⟩
      · refine List.mem_filter.mpr ⟨hsside, ?_⟩
        rw [← hkey]
        exact pandas_eq_self _ (hkeys r hr)
    · have hdup' : (! duplicated_keep_false df r) = true := by
        simp [Bool.not_eq_true] at hdup ⊢
        exact hdup
      have hrside : r ∈ df.filter (fun t => ! duplicated_keep_false df t) :=
        List.mem_filter.mpr ⟨hr, hdup'⟩
      have hsside : s ∈ df.filter (fun t => ! duplicated_keep_false df t) :=
        List.mem_filter.mpr ⟨hs, by rw [hdupeq]; exact hdup'⟩
      refine ⟨values_iter r.2.protein (df.filter (fun t => ! duplicated_keep_false df t)),
        ?_, ?_, ?_⟩
      · rw [build_tasks_eq]
        refine List.mem_append_right _ (List.mem_map.mpr ⟨r.2.protein, ?_, rfl⟩)
        exact (mem_unique_col _ _).mpr (List.mem_map.mpr ⟨r, hrside, rfl⟩)
      · exact List.mem_filter.mpr ⟨hrside, pandas_eq_self _ (hkeys r hr)⟩
      · refine List.mem_filter.mpr ⟨hsside, ?_⟩
        rw [← hkey]
        exact pandas_eq_self _ (hkeys r hr)
  · intro g hg
    rw [build_tasks_eq] at hg
    rcases List.mem_append.mp hg with h | h <;>
      obtain ⟨v, _, rfl⟩ := List.mem_map.mp h <;>
      exact (List.filter_sublist _).trans (List.filter_sublist _)

/-- Witness for `build_db_partition_correct` on the three-row batch `dfC1`. -/
theorem build_db_partition_correct_witness :
    (∀ r ∈ dfC1, r.2.protein ≠ none) ∧
    (List.Perm (build_tasks dfC1).flatten dfC1 ∧
    (∀ r ∈ dfC1, ∀ s ∈ dfC1, r.2.protein = s.2.protein →
      ∃ g ∈ build_tasks dfC1, r ∈ g ∧ s ∈ g) ∧
    (∀ g ∈ build_tasks dfC1, g.Sublist dfC1)) :=
  ⟨by decide, build_db_partition_correct dfC1 (by decide)⟩

end FamAnalysis
